import Mathlib

/-!
# Verification of the chip8rs CHIP-8 emulator core

Shallow embedding of `src/chip8.rs` (the module actually used by `src/main.rs`
via `mod chip8`), together with the sibling routine from `src/display.rs`
where it differs.  Machine integers are modelled as `Nat` with explicit bounds
where the source's fixed widths matter; Rust panics (index out of range,
debug-mode arithmetic overflow/underflow, the explicit `panic!` calls) are
modelled as `Option`/`Except` failures.  Host I/O (`minifb` window updates,
`println!`, `thread::sleep`) has no machine-state effect and is omitted.
-/

/-- `const DISPLAY_WIDTH: usize = 64` in `src/chip8.rs`. -/
def DISPLAY_WIDTH : Nat := 64

/-- `const DISPLAY_HEIGHT: usize = 32` in `src/chip8.rs`. -/
def DISPLAY_HEIGHT : Nat := 32

/-- `const COLOR_EMPTY: u32 = 0x000000` in `src/chip8.rs`. -/
def COLOR_EMPTY : Nat := 0x000000

/-- `const COLOR_FILLED: u32 = 0xFFFFFF` in `src/chip8.rs`. -/
def COLOR_FILLED : Nat := 0xFFFFFF

/-- Pointwise update of a function modelling a mutable Rust array:
`upd f i v` is the array `f` after `f[i] = v`. -/
def upd (f : Nat → Nat) (i v : Nat) : Nat → Nat :=
  fun k => if k = i then v else f k

/-- The framebuffer of `struct Display` in `src/chip8.rs`:
`pixels: [u32; DISPLAY_WIDTH * DISPLAY_HEIGHT]`, addressed by the flat index
`x + y * DISPLAY_WIDTH` (see `coordinate_to_index`).  The host window handle is
omitted. -/
structure Display where
  pixels : Nat → Nat

/-- The pixel array of `Display::new`: `[COLOR_EMPTY; DISPLAY_WIDTH * DISPLAY_HEIGHT]`. -/
def initDisplay : Display := ⟨fun _ => COLOR_EMPTY⟩

/-- `Display::clear` in `src/chip8.rs`: sets every pixel to `COLOR_EMPTY`. -/
def Display.clear (_d : Display) : Display := ⟨fun _ => COLOR_EMPTY⟩

/-- `Display::get_wrapped_coordinates` in `src/chip8.rs`: wraps coordinates
around the display in both x and y (`rem_euclid` on `usize` is `%` on `Nat`). -/
def get_wrapped_coordinates (x y : Nat) : Nat × Nat :=
  (x % DISPLAY_WIDTH, y % DISPLAY_HEIGHT)

/-- `Display::coordinate_to_index` in `src/chip8.rs`. -/
def coordinate_to_index (x y : Nat) : Nat :=
  x + (y * DISPLAY_WIDTH)

/-- One iteration of the inner `for j in ..` loop body of
`Display::draw_sprite` (`src/chip8.rs` lines 82-110, identical to
`src/display.rs` lines 76-104): composite bit `j` of sprite row `line` (row
index `i`) onto the accumulated `(display, pixels_erased)` pair.  The final
`else` branch is the `panic!("No matching condition ...")`, modelled as
`none`. -/
def drawPixelStep (acc : Display × Bool) (x y i j line : Nat) :
    Option (Display × Bool) :=
  let local_y := y + i
  let local_x := x + j
  let w := get_wrapped_coordinates local_x local_y
  let pixel_index := coordinate_to_index w.1 w.2
  let selector := 0b10000000 >>> j
  let sprite_pixel_value := (line &&& selector) >>> (7 - j)
  let display_pixel_value := acc.1.pixels pixel_index
  if sprite_pixel_value = 0 ∧ display_pixel_value = COLOR_EMPTY then
    some (⟨upd acc.1.pixels pixel_index COLOR_EMPTY⟩, acc.2)
  else if sprite_pixel_value = 0 ∧ display_pixel_value = COLOR_FILLED then
    some (⟨upd acc.1.pixels pixel_index COLOR_FILLED⟩, acc.2)
  else if sprite_pixel_value = 1 ∧ display_pixel_value = COLOR_EMPTY then
    some (⟨upd acc.1.pixels pixel_index COLOR_FILLED⟩, acc.2)
  else if sprite_pixel_value = 1 ∧ display_pixel_value = COLOR_FILLED then
    some (⟨upd acc.1.pixels pixel_index COLOR_EMPTY⟩, true)
  else
    none

/-- The inner column loop of `Display::draw_sprite`, run over the list of
column offsets `js` (`List.range 4` for the `for j in 0..4` loop of
`src/chip8.rs`, `List.range 8` for the `for j in 0..8` loop of
`src/display.rs`). -/
def drawCols (x y i line : Nat) : List Nat → Display × Bool → Option (Display × Bool)
  | [], acc => some acc
  | j :: js, acc =>
    match drawPixelStep acc x y i j line with
    | none => none
    | some acc2 => drawCols x y i line js acc2

/-- The outer `for (i, line) in sprite_data.iter().enumerate()` loop of
`Display::draw_sprite`, with `cols` the list of column offsets used by the
inner loop and `i` the enumeration index. -/
def drawRowsAux (cols : List Nat) (x y : Nat) :
    Nat → List Nat → Display × Bool → Option (Display × Bool)
  | _, [], acc => some acc
  | i, line :: rest, acc =>
    match drawCols x y i line cols acc with
    | none => none
    | some acc2 => drawRowsAux cols x y (i + 1) rest acc2

/-- `Display::draw_sprite` in `src/chip8.rs` (lines 76-114).  Note the inner
loop there is `for j in 0..4`: only the four leftmost bit columns of each
sprite row are composited.  Returns `none` for the `panic!` branch, otherwise
`some (display, pixels_erased)`. -/
def Display.draw_sprite (d : Display) (x y : Nat) (sprite_data : List Nat) :
    Option (Display × Bool) :=
  drawRowsAux (List.range 4) x y 0 sprite_data (d, false)

/-- `Display::draw_sprite` as written in the sibling file `src/display.rs`
(lines 69-108): identical to the `src/chip8.rs` routine except that the inner
loop is `for j in 0..8`, compositing all eight bit columns of each sprite
row. -/
def Display.draw_sprite_eight_cols (d : Display) (x y : Nat) (sprite_data : List Nat) :
    Option (Display × Bool) :=
  drawRowsAux (List.range 8) x y 0 sprite_data (d, false)

/-- The RAM of `struct Ram` in `src/chip8.rs`: `memory: [u8; 4096]`. Indices
outside `[0,4096)` do not exist in the source array; operations below guard
them and fail (`none`) exactly where the Rust indexing would panic. -/
structure Ram where
  memory : Nat → Nat

/-- `Ram::write_data` in `src/chip8.rs` (lines 163-167): writes the bytes of
`data` at consecutive indices starting at `index` (`self.memory[i + index] =
*byte` for the `i`-th byte).  `none` models the index-out-of-bounds panic. -/
def Ram.write_data : Ram → Nat → List Nat → Option Ram
  | r, _, [] => some r
  | r, index, b :: rest =>
    if index < 4096 then
      Ram.write_data ⟨upd r.memory index b⟩ (index + 1) rest
    else
      none

/-- `Ram::read_byte` in `src/chip8.rs` (lines 169-171). -/
def Ram.read_byte (r : Ram) (index : Nat) : Option Nat :=
  if index < 4096 then some (r.memory index) else none

/-- `Ram::read_bytes` in `src/chip8.rs` (lines 180-182):
`&self.memory[index..index + size]`, panicking (here `none`) when the slice
range leaves the array. -/
def Ram.read_bytes (r : Ram) (index size : Nat) : Option (List Nat) :=
  if index + size ≤ 4096 then
    some ((List.range size).map fun k => r.memory (index + k))
  else
    none

/-- `Ram::read_word` in `src/chip8.rs` (lines 173-178): reads the two bytes at
`index`, `index+1` via `read_bytes` and combines them big-endian
(`(bytes[0] << 8) | bytes[1]`). -/
def Ram.read_word (r : Ram) (index : Nat) : Option Nat :=
  if index + 2 ≤ 4096 then
    some (r.memory index <<< 8 ||| r.memory (index + 1))
  else
    none

/-- The ways a call to `Chip8::run_instruction` can abort the process in
`src/chip8.rs`.  `invalidInstruction w` is the
`panic!("Invalid Instruction: {:#02x}", current_instruction)` at line 263: the
formatted diagnostic carries only the raw instruction word.  The remaining
constructors model index-out-of-bounds panics on the RAM and the call stack,
debug-mode integer overflow/underflow panics on `u8`/`u16` arithmetic, and the
`panic!("No matching condition ...")` inside `Display::draw_sprite`. -/
inductive ExecErr where
  | invalidInstruction (word : Nat)
  | addrOutOfRange
  | stackIndexOutOfRange
  | spOverflow
  | spUnderflow
  | u16Overflow
  | drawUnreachable
deriving DecidableEq

/-- `pub struct Chip8` in `src/chip8.rs` (lines 185-194): sixteen `u16`
registers `vx`, `u16` index register `i`, `u16` program counter `pc`, `u8`
stack pointer `sp`, `u16` delay timer `dt`, sixteen `u16` stack slots, the RAM
and the display.  Register/stack arrays are modelled as functions from the
index. -/
structure Chip8 where
  vx : Nat → Nat
  i : Nat
  pc : Nat
  sp : Nat
  dt : Nat
  stack : Nat → Nat
  ram : Ram
  display : Display

/-- A throwaway state used only as the default of `Option.getD` when naming
the concrete result of a run in closed theorems. -/
def dummyChip8 : Chip8 :=
  ⟨fun _ => 0, 0, 0, 0, 0, fun _ => 0, ⟨fun _ => 0⟩, ⟨fun _ => 0⟩⟩

/-- `Chip8::cls` (`src/chip8.rs` lines 280-283): clear the display. -/
def Chip8.cls (s : Chip8) : Chip8 :=
  { s with display := s.display.clear }

/-- `Chip8::ret` (`src/chip8.rs` lines 290-293):
`self.pc = self.stack[self.sp as usize]; self.sp -= 1;`.  Indexing the
16-entry stack with `sp ≥ 16` panics; `sp -= 1` with `sp = 0` is a `u8`
underflow panic (debug build). -/
def Chip8.ret (s : Chip8) : Except ExecErr Chip8 :=
  if s.sp < 16 then
    if s.sp = 0 then
      .error .spUnderflow
    else
      .ok { s with pc := s.stack s.sp, sp := s.sp - 1 }
  else
    .error .stackIndexOutOfRange

/-- `Chip8::jp_addr` (`src/chip8.rs` lines 299-301): `self.pc = command & 0x0FFF`. -/
def Chip8.jp_addr (s : Chip8) (command : Nat) : Chip8 :=
  { s with pc := command &&& 0x0FFF }

/-- `Chip8::call_addr` (`src/chip8.rs` lines 308-317): `self.sp += 1;`
(`u8` overflow panics at 255), then `self.stack[self.sp as usize] = self.pc;`
(panics when the incremented `sp` reaches 16), then `self.pc = command & 0x0FFF`.
Note the store goes to slot `sp + 1`, the `sp` value after the increment. -/
def Chip8.call_addr (s : Chip8) (command : Nat) : Except ExecErr Chip8 :=
  if s.sp = 255 then
    .error .spOverflow
  else if s.sp + 1 < 16 then
    .ok { s with sp := s.sp + 1,
                 stack := upd s.stack (s.sp + 1) s.pc,
                 pc := command &&& 0x0FFF }
  else
    .error .stackIndexOutOfRange

/-- `Chip8::ld_vx_byte` (`src/chip8.rs` lines 350-355). -/
def Chip8.ld_vx_byte (s : Chip8) (command : Nat) : Chip8 :=
  { s with vx := upd s.vx ((command &&& 0x0F00) >>> 8) (command &&& 0x00FF) }

/-- `Chip8.add_vx_byte` (`src/chip8.rs` lines 362-367): `self.vx[x] += kk` on
`u16` values; there is no reduction modulo 256, and a sum past `0xFFFF` is a
`u16` overflow panic (debug build). -/
def Chip8.add_vx_byte (s : Chip8) (command : Nat) : Except ExecErr Chip8 :=
  let x := (command &&& 0x0F00) >>> 8
  let kk := command &&& 0x00FF
  if s.vx x + kk < 65536 then
    .ok { s with vx := upd s.vx x (s.vx x + kk) }
  else
    .error .u16Overflow

/-- `Chip8::ld_i_addr` (`src/chip8.rs` lines 468-472). -/
def Chip8.ld_i_addr (s : Chip8) (command : Nat) : Chip8 :=
  { s with i := command &&& 0x0FFF }

/-- `Chip8::drw_vx_vy_nibble` (`src/chip8.rs` lines 505-522): reads `n` sprite
bytes at `I`, draws them via `Display::draw_sprite` at the opcode nibbles
`(x, y)` (the source passes the nibbles themselves, not `vx[x]`/`vx[y]`), and
sets `vx[0xF]` to 1 when pixels were erased, else 0. -/
def Chip8.drw_vx_vy_nibble (s : Chip8) (command : Nat) : Except ExecErr Chip8 :=
  let x := (command &&& 0x0F00) >>> 8
  let y := (command &&& 0x00F0) >>> 4
  let n := command &&& 0x000F
  match s.ram.read_bytes s.i n with
  | none => .error .addrOutOfRange
  | some sprite_data =>
    match s.display.draw_sprite x y sprite_data with
    | none => .error .drawUnreachable
    | some (d2, pixels_erased) =>
      .ok { s with display := d2,
                   vx := upd s.vx 0xF (if pixels_erased then 1 else 0) }

/-- `Chip8::ld_vx_dt` (`src/chip8.rs` lines 546-550). -/
def Chip8.ld_vx_dt (s : Chip8) (command : Nat) : Chip8 :=
  { s with vx := upd s.vx ((command &&& 0x0F00) >>> 8) s.dt }

/-- `Chip8::ld_dt_vx` (`src/chip8.rs` lines 565-569). -/
def Chip8.ld_dt_vx (s : Chip8) (command : Nat) : Chip8 :=
  { s with dt := s.vx ((command &&& 0x0F00) >>> 8) }

/-- `Chip8::ld_f_vx` (`src/chip8.rs` lines 593-602): `self.i = digit * 5` on
`u16`, a debug-mode overflow panic past `0xFFFF`. -/
def Chip8.ld_f_vx (s : Chip8) (command : Nat) : Except ExecErr Chip8 :=
  let digit := s.vx ((command &&& 0x0F00) >>> 8)
  if digit * 5 < 65536 then
    .ok { s with i := digit * 5 }
  else
    .error .u16Overflow

/-- `Chip8::ld_b_vx` (`src/chip8.rs` lines 610-621): BCD of `self.vx[x] as u8`
(truncation to `u8` is `% 256`) written at `I`, `I+1`, `I+2`. -/
def Chip8.ld_b_vx (s : Chip8) (command : Nat) : Except ExecErr Chip8 :=
  let x := (command &&& 0x0F00) >>> 8
  let reg_val := s.vx x % 256
  let hundreds := reg_val / 100
  let tens := (reg_val - hundreds * 100) / 10
  let ones := reg_val - (hundreds * 100 + tens * 10)
  match s.ram.write_data s.i [hundreds, tens, ones] with
  | none => .error .addrOutOfRange
  | some r2 => .ok { s with ram := r2 }

/-- The `for i in 0..x + 1` loop of `Chip8::ld_vx_i`: loads
`vx[k] = memory[I + k]` for each `k` in the list. -/
def loadRegsLoop (ram : Ram) (base : Nat) (vxf : Nat → Nat) :
    List Nat → Option (Nat → Nat)
  | [] => some vxf
  | k :: ks =>
    match ram.read_byte (base + k) with
    | none => none
    | some b => loadRegsLoop ram base (upd vxf k b) ks

/-- `Chip8::ld_vx_i` (`src/chip8.rs` lines 637-647): reads `V0..Vx` inclusive
from memory starting at `I`; an out-of-range read panics. -/
def Chip8.ld_vx_i (s : Chip8) (command : Nat) : Except ExecErr Chip8 :=
  let x := (command &&& 0x0F00) >>> 8
  match loadRegsLoop s.ram s.i s.vx (List.range (x + 1)) with
  | none => .error .addrOutOfRange
  | some vxf => .ok { s with vx := vxf }

/-- The opcode dispatch chain of `Chip8::run_instruction` (`src/chip8.rs`
lines 224-264), applied to the state `s1` in which `pc` has already been
advanced past the instruction (`self.pc += 2` at line 222) and to the fetched
word `current`.  The final `else` branch is the fatal
`panic!("Invalid Instruction: {:#02x}", current_instruction)`. -/
def Chip8.exec (s1 : Chip8) (current : Nat) : Except ExecErr Chip8 :=
  if current = 0x00E0 then .ok (Chip8.cls s1)
    else if current = 0x00EE then Chip8.ret s1
    else if current >>> 12 = 0x1 then .ok (Chip8.jp_addr s1 current)
    else if current >>> 12 = 0x2 then Chip8.call_addr s1 current
    else if current >>> 12 = 0x6 then .ok (Chip8.ld_vx_byte s1 current)
    else if current >>> 12 = 0x7 then Chip8.add_vx_byte s1 current
    else if current >>> 12 = 0xA then .ok (Chip8.ld_i_addr s1 current)
    else if current >>> 12 = 0xD then Chip8.drw_vx_vy_nibble s1 current
    else if current &&& 0xF0FF = 0xF007 then .ok (Chip8.ld_vx_dt s1 current)
    else if current &&& 0xF0FF = 0xF015 then .ok (Chip8.ld_dt_vx s1 current)
    else if current &&& 0xF0FF = 0xF029 then Chip8.ld_f_vx s1 current
    else if current &&& 0xF0FF = 0xF033 then Chip8.ld_b_vx s1 current
    else if current &&& 0xF0FF = 0xF065 then Chip8.ld_vx_i s1 current
    else .error (.invalidInstruction current)

/-- `Chip8::run_instruction` (`src/chip8.rs` lines 218-267): fetch the word at
`pc`, advance `pc` by 2, then dispatch through the if-chain (`Chip8.exec`).
The trailing `self.display.update()` is host I/O with no machine-state
effect. -/
def Chip8.run_instruction (s : Chip8) : Except ExecErr Chip8 :=
  match s.ram.read_word s.pc with
  | none => .error .addrOutOfRange
  | some current => Chip8.exec { s with pc := s.pc + 2 } current

/-- Iterated `run_instruction`: the driver loop of `src/main.rs` calls
`chip8.run_instruction()` once per iteration. -/
def Chip8.steps : Nat → Chip8 → Except ExecErr Chip8
  | 0, s => .ok s
  | n + 1, s =>
    match Chip8.run_instruction s with
    | .error e => .error e
    | .ok t => Chip8.steps n t

/-- The 80-byte font table written at address 0 by `Ram::new`
(`src/chip8.rs` lines 135-155). -/
def fontData : List Nat :=
  [0xF0, 0x90, 0x90, 0x90, 0xF0,
   0x20, 0x60, 0x20, 0x20, 0x70,
   0xF0, 0x10, 0xF0, 0x80, 0xF0,
   0xF0, 0x10, 0xF0, 0x10, 0xF0,
   0x90, 0x90, 0xF0, 0x10, 0x10,
   0xF0, 0x80, 0xF0, 0x10, 0xF0,
   0xF0, 0x80, 0xF0, 0x90, 0xF0,
   0xF0, 0x10, 0x20, 0x40, 0x40,
   0xF0, 0x90, 0xF0, 0x90, 0xF0,
   0xF0, 0x90, 0xF0, 0x10, 0xF0,
   0xF0, 0x90, 0xF0, 0x90, 0x90,
   0xE0, 0x90, 0xE0, 0x90, 0xE0,
   0xF0, 0x80, 0x80, 0x80, 0xF0,
   0xE0, 0x90, 0x90, 0x90, 0xE0,
   0xF0, 0x80, 0xF0, 0x80, 0xF0,
   0xF0, 0x80, 0xF0, 0x80, 0x80]

/-- `Ram::new` (`src/chip8.rs` lines 122-161) given the ROM bytes already
read from disk: zeroed memory, font written at 0, ROM written at 0x200. -/
def Ram.new (rom_data : List Nat) : Option Ram :=
  match Ram.write_data ⟨fun _ => 0⟩ 0 fontData with
  | none => none
  | some r1 => r1.write_data 0x200 rom_data

/-- `Chip8::new` (`src/chip8.rs` lines 197-208) given the ROM bytes: all
registers and stack slots zero, `pc = 0x200`, fresh RAM and display. -/
def Chip8.new (rom_data : List Nat) : Option Chip8 :=
  match Ram.new rom_data with
  | none => none
  | some ram =>
    some { vx := fun _ => 0
           i := 0
           pc := 0x200
           sp := 0
           dt := 0
           stack := fun _ => 0
           ram := ram
           display := initDisplay }

/-- The framebuffer invariant of `Display`: every pixel cell is either
`COLOR_EMPTY` or `COLOR_FILLED`. -/
def PixOk (d : Display) : Prop :=
  ∀ idx, d.pixels idx = COLOR_EMPTY ∨ d.pixels idx = COLOR_FILLED

/-- The execution invariant behind the program-counter range: the PC and every
stack slot hold values at most 4096. -/
def PcStackBounded (s : Chip8) : Prop :=
  s.pc ≤ 4096 ∧ ∀ k, s.stack k ≤ 4096

/-- The display produced by drawing the single-row sprite `0xFF` at (60, 0)
on a blank screen with the `src/chip8.rs` routine. -/
def c1d : Display :=
  ((Display.draw_sprite initDisplay 60 0 [0xFF]).getD (initDisplay, false)).1

/-- A state about to execute `A123` (`LD I, 0x123`) with `DT = 5`. -/
def c2s0 : Chip8 :=
  { dummyChip8 with
    pc := 0x200, dt := 5,
    ram := ⟨fun a => if a = 0x200 then 0xA1 else if a = 0x201 then 0x23 else 0⟩ }

/-- The state after executing the `A123` instruction of `c2s0`. -/
def c2s1 : Chip8 := (Chip8.run_instruction c2s0).toOption.getD dummyChip8

/-- A state about to execute `3A05` (`SE VA, 0x05`) with `VA = 0x05`. -/
def c3s0 : Chip8 :=
  { dummyChip8 with
    pc := 0x200,
    vx := fun k => if k = 0xA then 0x05 else 0,
    ram := ⟨fun a => if a = 0x200 then 0x3A else if a = 0x201 then 0x05 else 0⟩ }

/-- A state about to execute `70FF` (`ADD V0, 0xFF`) with `V0 = 0xFF`. -/
def c4s0 : Chip8 :=
  { dummyChip8 with
    pc := 0x200,
    vx := fun k => if k = 0 then 0xFF else 0,
    ram := ⟨fun a => if a = 0x200 then 0x70 else if a = 0x201 then 0xFF else 0⟩ }

/-- The state after executing the `70FF` instruction of `c4s0`. -/
def c4s1 : Chip8 := (Chip8.run_instruction c4s0).toOption.getD dummyChip8

/-- A state about to execute `2300` (`CALL 0x300`) with `SP = 0` and an
all-zero stack. -/
def c5s0 : Chip8 :=
  { dummyChip8 with
    pc := 0x200,
    ram := ⟨fun a => if a = 0x200 then 0x23 else if a = 0x201 then 0x00 else 0⟩ }

/-- The state after executing the `2300` instruction of `c5s0`. -/
def c5s1 : Chip8 := (Chip8.run_instruction c5s0).toOption.getD dummyChip8

/-- A state fetching the unrecognized word `FFFF` at `PC = 0x200`. -/
def c6s0 : Chip8 :=
  { dummyChip8 with
    pc := 0x200,
    ram := ⟨fun a => if a = 0x200 then 0xFF else if a = 0x201 then 0xFF else 0⟩ }

/-- A state fetching the unrecognized word `FFFF` at a different PC, 0x204. -/
def c6s1 : Chip8 :=
  { dummyChip8 with
    pc := 0x204,
    ram := ⟨fun a => if a = 0x204 then 0xFF else if a = 0x205 then 0xFF else 0⟩ }

/-- A two-byte ROM holding the single instruction `11FF` (`JP 0x1FF`). -/
def c7rom : List Nat := [0x11, 0xFF]

/-- The machine freshly constructed on the ROM `c7rom`. -/
def c7s0 : Chip8 := (Chip8.new c7rom).getD dummyChip8

/-- The machine after one step of `c7s0`. -/
def c7s1 : Chip8 := (Chip8.steps 1 c7s0).toOption.getD dummyChip8

/-- A state about to execute `2300` at `PC = 0x200`, with `00EE` stored at
address 0x300 and `SP = 0`. -/
def c8s0 : Chip8 :=
  { dummyChip8 with
    pc := 0x200,
    ram := ⟨fun a =>
      if a = 0x200 then 0x23 else if a = 0x201 then 0x00 else
      if a = 0x300 then 0x00 else if a = 0x301 then 0xEE else 0⟩ }

theorem upd_same (f : Nat → Nat) (i v : Nat) : upd f i v i = v := by
  simp [upd]

theorem upd_other (f : Nat → Nat) (i v k : Nat) (h : k ≠ i) : upd f i v k = f k := by
  simp [upd, h]

example : get_wrapped_coordinates 67 33 = (3, 1) := by decide

example : coordinate_to_index 3 2 = 131 := by decide

/-- Fetch characterization of a single step: with the fetched word in hand,
`run_instruction` is exactly `exec` on the advanced state. -/
theorem Chip8.run_instruction_eq_exec (s : Chip8) (w : Nat)
    (hfetch : s.ram.read_word s.pc = some w) :
    Chip8.run_instruction s = Chip8.exec { s with pc := s.pc + 2 } w := by
  unfold Chip8.run_instruction
  rw [hfetch]

/-- Writing a block starting at `index` never touches addresses below `index`. -/
theorem Ram.write_data_mem_lt (data : List Nat) :
    ∀ (r r2 : Ram) (index : Nat),
      Ram.write_data r index data = some r2 → ∀ j, j < index → r2.memory j = r.memory j := by
  induction data with
  | nil =>
    intro r r2 index h j hj
    simp only [Ram.write_data, Option.some.injEq] at h
    rw [← h]
  | cons b rest ih =>
    intro r r2 index h j hj
    simp only [Ram.write_data] at h
    split at h
    · have hrec := ih _ _ _ h j (by omega)
      rw [hrec]
      exact upd_other _ _ _ _ (by omega)
    · exact absurd h (by simp)

/-- An in-range block write succeeds and reading the same range back returns
exactly the written bytes. -/
theorem Ram.write_data_read_bytes (bs : List Nat) :
    ∀ (r : Ram) (a : Nat), a + bs.length ≤ 4096 →
      ∃ r2, Ram.write_data r a bs = some r2 ∧
        Ram.read_bytes r2 a bs.length = some bs := by
  induction bs with
  | nil =>
    intro r a h
    refine ⟨r, rfl, ?_⟩
    simp only [List.length_nil, Ram.read_bytes, Nat.add_zero]
    rw [if_pos (by omega)]
    simp
  | cons b rest ih =>
    intro r a h
    have hlen : a + (rest.length + 1) ≤ 4096 := by simpa using h
    have ha : a < 4096 := by omega
    obtain ⟨r2, hw, hr⟩ := ih ⟨upd r.memory a b⟩ (a + 1) (by omega)
    have hmem_a : r2.memory a = b := by
      have hlow := Ram.write_data_mem_lt rest _ _ _ hw a (by omega)
      rw [hlow]
      exact upd_same r.memory a b
    refine ⟨r2, ?_, ?_⟩
    · simp only [Ram.write_data, if_pos ha]
      exact hw
    · have hrest : (List.range rest.length).map (fun k => r2.memory (a + 1 + k)) = rest := by
        simp only [Ram.read_bytes, if_pos (by omega : a + 1 + rest.length ≤ 4096),
          Option.some.injEq] at hr
        exact hr
      simp only [Ram.read_bytes, List.length_cons, if_pos hlen, Option.some.injEq]
      rw [List.range_succ_eq_map, List.map_cons, List.map_map]
      have hmaps : (List.range rest.length).map ((fun k => r2.memory (a + k)) ∘ Nat.succ)
          = (List.range rest.length).map (fun k => r2.memory (a + 1 + k)) := by
        refine List.map_congr_left ?_
        intro k _
        simp only [Function.comp_apply]
        congr 1
        omega
      refine List.cons_eq_cons.mpr ⟨by simpa using hmem_a, ?_⟩
      rw [hmaps]
      exact hrest

theorem PixOk_initDisplay : PixOk initDisplay := by
  intro idx
  exact Or.inl rfl

theorem PixOk_clear (d : Display) : PixOk (Display.clear d) := by
  intro idx
  exact Or.inl rfl

theorem PixOk_upd (d : Display) (h : PixOk d) (ix c : Nat)
    (hc : c = COLOR_EMPTY ∨ c = COLOR_FILLED) : PixOk ⟨upd d.pixels ix c⟩ := by
  intro k
  by_cases hk : k = ix
  · simpa [upd, hk] using hc
  · simpa [upd, hk] using h k

/-- The extracted sprite pixel value `(line & (0b1000_0000 >> j)) >> (7 - j)`
is a single bit for every byte `line` and column offset `j ≤ 7`. -/
theorem sprite_bit_cases (line j : Nat) (hj : j ≤ 7) :
    (line &&& (128 >>> j)) >>> (7 - j) = 0 ∨ (line &&& (128 >>> j)) >>> (7 - j) = 1 := by
  have h128 : (128 : Nat) >>> j = 2 ^ (7 - j) := by
    have : (128 : Nat) = 2 ^ 7 := by norm_num
    rw [this, Nat.shiftRight_eq_div_pow]
    exact Nat.pow_div hj (by norm_num)
  rw [h128, Nat.and_two_pow, Nat.shiftRight_eq_div_pow,
    Nat.mul_div_cancel _ (Nat.pos_pow_of_pos _ (by norm_num))]
  cases line.testBit (7 - j) <;> simp

/-- For a column offset `j ≤ 7` and any pixel state satisfying the invariant,
one of the four compositing branches of the loop body fires (the `panic!`
branch is unreachable) and the invariant is preserved. -/
theorem drawPixelStep_total (acc : Display × Bool) (x y i j line : Nat)
    (hj : j ≤ 7) (hpix : PixOk acc.1) :
    ∃ acc2, drawPixelStep acc x y i j line = some acc2 ∧ PixOk acc2.1 := by
  have hbit := sprite_bit_cases line j hj
  have hdisp := hpix (coordinate_to_index
    (get_wrapped_coordinates (x + j) (y + i)).1
    (get_wrapped_coordinates (x + j) (y + i)).2)
  unfold drawPixelStep
  dsimp only
  split_ifs with h1 h2 h3 h4
  · exact ⟨_, rfl, PixOk_upd _ hpix _ _ (Or.inl rfl)⟩
  · exact ⟨_, rfl, PixOk_upd _ hpix _ _ (Or.inr rfl)⟩
  · exact ⟨_, rfl, PixOk_upd _ hpix _ _ (Or.inr rfl)⟩
  · exact ⟨_, rfl, PixOk_upd _ hpix _ _ (Or.inl rfl)⟩
  · rcases hbit with hb | hb <;> rcases hdisp with hd | hd <;>
      simp [hb, hd] at h1 h2 h3 h4

theorem drawCols_total (x y i line : Nat) (js : List Nat) :
    ∀ acc : Display × Bool, (∀ j ∈ js, j ≤ 7) → PixOk acc.1 →
      ∃ acc2, drawCols x y i line js acc = some acc2 ∧ PixOk acc2.1 := by
  induction js with
  | nil =>
    intro acc _ hpix
    exact ⟨acc, rfl, hpix⟩
  | cons j js ih =>
    intro acc hjs hpix
    obtain ⟨acc2, hstep, hpix2⟩ :=
      drawPixelStep_total acc x y i j line (hjs j (by simp)) hpix
    obtain ⟨acc3, hrec, hpix3⟩ := ih acc2 (fun k hk => hjs k (by simp [hk])) hpix2
    exact ⟨acc3, by simp only [drawCols, hstep, hrec], hpix3⟩

theorem drawRowsAux_total (cols : List Nat) (hcols : ∀ j ∈ cols, j ≤ 7)
    (x y : Nat) (rows : List Nat) :
    ∀ (i : Nat) (acc : Display × Bool), PixOk acc.1 →
      ∃ acc2, drawRowsAux cols x y i rows acc = some acc2 ∧ PixOk acc2.1 := by
  induction rows with
  | nil =>
    intro i acc hpix
    exact ⟨acc, rfl, hpix⟩
  | cons line rest ih =>
    intro i acc hpix
    obtain ⟨acc2, hstep, hpix2⟩ := drawCols_total x y i line cols acc hcols hpix
    obtain ⟨acc3, hrec, hpix3⟩ := ih (i + 1) acc2 hpix2
    exact ⟨acc3, by simp only [drawRowsAux, hstep, hrec], hpix3⟩

/-- `Display::draw_sprite` (`src/chip8.rs` version) never reaches its
`panic!` branch on an invariant-satisfying display, and preserves the
invariant. -/
theorem draw_sprite_total (d : Display) (x y : Nat) (rows : List Nat)
    (h : PixOk d) :
    ∃ d2 er, Display.draw_sprite d x y rows = some (d2, er) ∧ PixOk d2 := by
  obtain ⟨⟨d2, er⟩, hrun, hpix⟩ :=
    drawRowsAux_total (List.range 4) (by decide) x y rows 0 (d, false) h
  exact ⟨d2, er, hrun, hpix⟩

theorem Chip8.ret_ok (s t : Chip8) (h : Chip8.ret s = .ok t) :
    s.sp < 16 ∧ s.sp ≠ 0 ∧ t = { s with pc := s.stack s.sp, sp := s.sp - 1 } := by
  unfold Chip8.ret at h
  split_ifs at h with h1 h2
  simp only [Except.ok.injEq] at h
  exact ⟨h1, h2, h.symm⟩

theorem Chip8.call_addr_ok (s : Chip8) (w : Nat) (t : Chip8)
    (h : Chip8.call_addr s w = .ok t) :
    s.sp ≠ 255 ∧ s.sp + 1 < 16 ∧
      t = { s with sp := s.sp + 1,
                   stack := upd s.stack (s.sp + 1) s.pc,
                   pc := w &&& 0x0FFF } := by
  unfold Chip8.call_addr at h
  split_ifs at h with h1 h2
  simp only [Except.ok.injEq] at h
  exact ⟨h1, h2, h.symm⟩

theorem Chip8.add_vx_byte_ok (s : Chip8) (w : Nat) (t : Chip8)
    (h : Chip8.add_vx_byte s w = .ok t) :
    s.vx ((w &&& 0x0F00) >>> 8) + (w &&& 0x00FF) < 65536 ∧
      t = { s with vx := upd s.vx ((w &&& 0x0F00) >>> 8)
                           (s.vx ((w &&& 0x0F00) >>> 8) + (w &&& 0x00FF)) } := by
  unfold Chip8.add_vx_byte at h
  dsimp only at h
  split_ifs at h with h1
  simp only [Except.ok.injEq] at h
  exact ⟨h1, h.symm⟩

theorem Chip8.ld_f_vx_ok (s : Chip8) (w : Nat) (t : Chip8)
    (h : Chip8.ld_f_vx s w = .ok t) :
    t = { s with i := s.vx ((w &&& 0x0F00) >>> 8) * 5 } := by
  unfold Chip8.ld_f_vx at h
  dsimp only at h
  split_ifs at h with h1
  simp only [Except.ok.injEq] at h
  exact h.symm

theorem Chip8.ld_b_vx_ok (s : Chip8) (w : Nat) (t : Chip8)
    (h : Chip8.ld_b_vx s w = .ok t) :
    ∃ r2, t = { s with ram := r2 } := by
  unfold Chip8.ld_b_vx at h
  dsimp only at h
  split at h
  · exact absurd h (by simp)
  · simp only [Except.ok.injEq] at h
    exact ⟨_, h.symm⟩

theorem Chip8.ld_vx_i_ok (s : Chip8) (w : Nat) (t : Chip8)
    (h : Chip8.ld_vx_i s w = .ok t) :
    ∃ f, t = { s with vx := f } := by
  unfold Chip8.ld_vx_i at h
  dsimp only at h
  split at h
  · exact absurd h (by simp)
  · simp only [Except.ok.injEq] at h
    exact ⟨_, h.symm⟩

theorem Chip8.drw_vx_vy_nibble_ok (s : Chip8) (w : Nat) (t : Chip8)
    (h : Chip8.drw_vx_vy_nibble s w = .ok t) :
    ∃ d2 vf, t = { s with display := d2, vx := upd s.vx 0xF vf } := by
  unfold Chip8.drw_vx_vy_nibble at h
  dsimp only at h
  split at h
  · exact absurd h (by simp)
  · split at h
    · exact absurd h (by simp)
    · simp only [Except.ok.injEq] at h
      exact ⟨_, _, h.symm⟩

theorem upd_le (f : Nat → Nat) (i v c : Nat) (hf : ∀ k, f k ≤ c) (hv : v ≤ c) :
    ∀ k, upd f i v k ≤ c := by
  intro k
  by_cases hk : k = i
  · simpa [upd, hk] using hv
  · simpa [upd, hk] using hf k

/-- Case analysis of a successful dispatch: `exec s1 w = .ok t` means exactly
one of the thirteen implemented instructions produced `t` from `s1`. -/
theorem Chip8.exec_ok_cases (s1 t : Chip8) (w : Nat)
    (h : Chip8.exec s1 w = .ok t) :
    t = Chip8.cls s1 ∨
    Chip8.ret s1 = .ok t ∨
    t = Chip8.jp_addr s1 w ∨
    Chip8.call_addr s1 w = .ok t ∨
    t = Chip8.ld_vx_byte s1 w ∨
    Chip8.add_vx_byte s1 w = .ok t ∨
    t = Chip8.ld_i_addr s1 w ∨
    Chip8.drw_vx_vy_nibble s1 w = .ok t ∨
    t = Chip8.ld_vx_dt s1 w ∨
    (w &&& 0xF0FF = 0xF015 ∧ t = Chip8.ld_dt_vx s1 w) ∨
    Chip8.ld_f_vx s1 w = .ok t ∨
    Chip8.ld_b_vx s1 w = .ok t ∨
    Chip8.ld_vx_i s1 w = .ok t := by
  unfold Chip8.exec at h
  by_cases h1 : w = 0x00E0
  · rw [if_pos h1] at h
    simp only [Except.ok.injEq] at h
    exact Or.inl h.symm
  rw [if_neg h1] at h
  by_cases h2 : w = 0x00EE
  · rw [if_pos h2] at h
    exact Or.inr (Or.inl h)
  rw [if_neg h2] at h
  by_cases h3 : w >>> 12 = 0x1
  · rw [if_pos h3] at h
    simp only [Except.ok.injEq] at h
    exact Or.inr (Or.inr (Or.inl h.symm))
  rw [if_neg h3] at h
  by_cases h4 : w >>> 12 = 0x2
  · rw [if_pos h4] at h
    exact Or.inr (Or.inr (Or.inr (Or.inl h)))
  rw [if_neg h4] at h
  by_cases h5 : w >>> 12 = 0x6
  · rw [if_pos h5] at h
    simp only [Except.ok.injEq] at h
    exact Or.inr (Or.inr (Or.inr (Or.inr (Or.inl h.symm))))
  rw [if_neg h5] at h
  by_cases h6 : w >>> 12 = 0x7
  · rw [if_pos h6] at h
    exact Or.inr (Or.inr (Or.inr (Or.inr (Or.inr (Or.inl h)))))
  rw [if_neg h6] at h
  by_cases h7 : w >>> 12 = 0xA
  · rw [if_pos h7] at h
    simp only [Except.ok.injEq] at h
    exact Or.inr (Or.inr (Or.inr (Or.inr (Or.inr (Or.inr (Or.inl h.symm))))))
  rw [if_neg h7] at h
  by_cases h8 : w >>> 12 = 0xD
  · rw [if_pos h8] at h
    exact Or.inr (Or.inr (Or.inr (Or.inr (Or.inr (Or.inr (Or.inr (Or.inl h)))))))
  rw [if_neg h8] at h
  by_cases h9 : w &&& 0xF0FF = 0xF007
  · rw [if_pos h9] at h
    simp only [Except.ok.injEq] at h
    exact Or.inr (Or.inr (Or.inr (Or.inr (Or.inr (Or.inr (Or.inr (Or.inr
      (Or.inl h.symm))))))))
  rw [if_neg h9] at h
  by_cases h10 : w &&& 0xF0FF = 0xF015
  · rw [if_pos h10] at h
    simp only [Except.ok.injEq] at h
    exact Or.inr (Or.inr (Or.inr (Or.inr (Or.inr (Or.inr (Or.inr (Or.inr
      (Or.inr (Or.inl ⟨h10, h.symm⟩)))))))))
  rw [if_neg h10] at h
  by_cases h11 : w &&& 0xF0FF = 0xF029
  · rw [if_pos h11] at h
    exact Or.inr (Or.inr (Or.inr (Or.inr (Or.inr (Or.inr (Or.inr (Or.inr
      (Or.inr (Or.inr (Or.inl h))))))))))
  rw [if_neg h11] at h
  by_cases h12 : w &&& 0xF0FF = 0xF033
  · rw [if_pos h12] at h
    exact Or.inr (Or.inr (Or.inr (Or.inr (Or.inr (Or.inr (Or.inr (Or.inr
      (Or.inr (Or.inr (Or.inr (Or.inl h)))))))))))
  rw [if_neg h12] at h
  by_cases h13 : w &&& 0xF0FF = 0xF065
  · rw [if_pos h13] at h
    exact Or.inr (Or.inr (Or.inr (Or.inr (Or.inr (Or.inr (Or.inr (Or.inr
      (Or.inr (Or.inr (Or.inr (Or.inr h)))))))))))
  rw [if_neg h13] at h
  exact absurd h (by simp)

/-- Any successfully executed instruction other than `Fx15` (`LD DT, Vx`)
leaves the delay timer exactly as it was: no step of the cycle decrements
`dt`. -/
theorem Chip8.run_instruction_dt (s t : Chip8) (w : Nat)
    (hfetch : s.ram.read_word s.pc = some w)
    (hw : w &&& 0xF0FF ≠ 0xF015)
    (hrun : Chip8.run_instruction s = .ok t) : t.dt = s.dt := by
  rw [Chip8.run_instruction_eq_exec s w hfetch] at hrun
  rcases Chip8.exec_ok_cases _ _ _ hrun with
    ht | ht | ht | ht | ht | ht | ht | ht | ht | ⟨hcond, -⟩ | ht | ht | ht
  · subst ht; rfl
  · obtain ⟨-, -, ht⟩ := Chip8.ret_ok _ _ ht
    subst ht; rfl
  · subst ht; rfl
  · obtain ⟨-, -, ht⟩ := Chip8.call_addr_ok _ _ _ ht
    subst ht; rfl
  · subst ht; rfl
  · obtain ⟨-, ht⟩ := Chip8.add_vx_byte_ok _ _ _ ht
    subst ht; rfl
  · subst ht; rfl
  · obtain ⟨d2, vf, ht⟩ := Chip8.drw_vx_vy_nibble_ok _ _ _ ht
    subst ht; rfl
  · subst ht; rfl
  · exact absurd hcond hw
  · have ht := Chip8.ld_f_vx_ok _ _ _ ht
    subst ht; rfl
  · obtain ⟨r2, ht⟩ := Chip8.ld_b_vx_ok _ _ _ ht
    subst ht; rfl
  · obtain ⟨f, ht⟩ := Chip8.ld_vx_i_ok _ _ _ ht
    subst ht; rfl

theorem Chip8.run_instruction_bounded (s t : Chip8) (hb : PcStackBounded s)
    (hrun : Chip8.run_instruction s = .ok t) : PcStackBounded t := by
  cases hfetch : s.ram.read_word s.pc with
  | none =>
    unfold Chip8.run_instruction at hrun
    rw [hfetch] at hrun
    exact absurd hrun (by simp)
  | some w =>
    rw [Chip8.run_instruction_eq_exec s w hfetch] at hrun
    have hpc2 : s.pc + 2 ≤ 4096 := by
      unfold Ram.read_word at hfetch
      by_cases hg : s.pc + 2 ≤ 4096
      · exact hg
      · rw [if_neg hg] at hfetch
        exact absurd hfetch (by simp)
    have hjp : w &&& 0x0FFF ≤ 4096 :=
      le_trans Nat.and_le_right (by norm_num)
    rcases Chip8.exec_ok_cases _ _ _ hrun with
      ht | ht | ht | ht | ht | ht | ht | ht | ht | ⟨-, ht⟩ | ht | ht | ht
    · subst ht; exact ⟨hpc2, hb.2⟩
    · obtain ⟨-, -, ht⟩ := Chip8.ret_ok _ _ ht
      subst ht; exact ⟨hb.2 _, hb.2⟩
    · subst ht; exact ⟨hjp, hb.2⟩
    · obtain ⟨-, -, ht⟩ := Chip8.call_addr_ok _ _ _ ht
      subst ht
      exact ⟨hjp, upd_le _ _ _ _ hb.2 hpc2⟩
    · subst ht; exact ⟨hpc2, hb.2⟩
    · obtain ⟨-, ht⟩ := Chip8.add_vx_byte_ok _ _ _ ht
      subst ht; exact ⟨hpc2, hb.2⟩
    · subst ht; exact ⟨hpc2, hb.2⟩
    · obtain ⟨d2, vf, ht⟩ := Chip8.drw_vx_vy_nibble_ok _ _ _ ht
      subst ht; exact ⟨hpc2, hb.2⟩
    · subst ht; exact ⟨hpc2, hb.2⟩
    · subst ht; exact ⟨hpc2, hb.2⟩
    · have ht := Chip8.ld_f_vx_ok _ _ _ ht
      subst ht; exact ⟨hpc2, hb.2⟩
    · obtain ⟨r2, ht⟩ := Chip8.ld_b_vx_ok _ _ _ ht
      subst ht; exact ⟨hpc2, hb.2⟩
    · obtain ⟨f, ht⟩ := Chip8.ld_vx_i_ok _ _ _ ht
      subst ht; exact ⟨hpc2, hb.2⟩

theorem Chip8.steps_bounded (n : Nat) :
    ∀ s t : Chip8, PcStackBounded s → Chip8.steps n s = .ok t → PcStackBounded t := by
  induction n with
  | zero =>
    intro s t hb h
    simp only [Chip8.steps, Except.ok.injEq] at h
    rwa [← h]
  | succ n ih =>
    intro s t hb h
    simp only [Chip8.steps] at h
    cases hrun : Chip8.run_instruction s with
    | error e => rw [hrun] at h; exact absurd h (by simp)
    | ok u =>
      rw [hrun] at h
      exact ih u t (Chip8.run_instruction_bounded s u hb hrun) h

/-- A fetched word matching none of the thirteen implemented patterns makes
`run_instruction` abort with the `Invalid Instruction` panic, whose diagnostic
payload is the raw word alone. -/
theorem Chip8.run_instruction_invalid (s : Chip8) (w : Nat)
    (hfetch : s.ram.read_word s.pc = some w)
    (h1 : w ≠ 0x00E0) (h2 : w ≠ 0x00EE)
    (h3 : w >>> 12 ≠ 0x1) (h4 : w >>> 12 ≠ 0x2) (h5 : w >>> 12 ≠ 0x6)
    (h6 : w >>> 12 ≠ 0x7) (h7 : w >>> 12 ≠ 0xA) (h8 : w >>> 12 ≠ 0xD)
    (h9 : w &&& 0xF0FF ≠ 0xF007) (h10 : w &&& 0xF0FF ≠ 0xF015)
    (h11 : w &&& 0xF0FF ≠ 0xF029) (h12 : w &&& 0xF0FF ≠ 0xF033)
    (h13 : w &&& 0xF0FF ≠ 0xF065) :
    Chip8.run_instruction s = .error (.invalidInstruction w) := by
  rw [Chip8.run_instruction_eq_exec s w hfetch]
  unfold Chip8.exec
  rw [if_neg h1, if_neg h2, if_neg h3, if_neg h4, if_neg h5, if_neg h6,
    if_neg h7, if_neg h8, if_neg h9, if_neg h10, if_neg h11, if_neg h12,
    if_neg h13]

/-- A word with high nibble 2 dispatches to `call_addr`. -/
theorem Chip8.exec_call (s1 : Chip8) (w : Nat) (hw : w >>> 12 = 0x2) :
    Chip8.exec s1 w = Chip8.call_addr s1 w := by
  have hdiv : w / 4096 = 2 := by
    have hh := hw
    rw [Nat.shiftRight_eq_div_pow] at hh
    norm_num at hh
    exact hh
  unfold Chip8.exec
  rw [if_neg (by omega), if_neg (by omega), if_neg (by simp [hw]), if_pos hw]

/-- A word with high nibble 7 dispatches to `add_vx_byte`. -/
theorem Chip8.exec_add (s1 : Chip8) (w : Nat) (hw : w >>> 12 = 0x7) :
    Chip8.exec s1 w = Chip8.add_vx_byte s1 w := by
  have hdiv : w / 4096 = 7 := by
    have hh := hw
    rw [Nat.shiftRight_eq_div_pow] at hh
    norm_num at hh
    exact hh
  unfold Chip8.exec
  rw [if_neg (by omega), if_neg (by omega), if_neg (by simp [hw]),
    if_neg (by simp [hw]), if_neg (by simp [hw]), if_pos hw]

/-- The word `0x00EE` dispatches to `ret`. -/
theorem Chip8.exec_ret_word (s1 : Chip8) :
    Chip8.exec s1 0x00EE = Chip8.ret s1 := by
  unfold Chip8.exec
  rw [if_neg (by decide), if_pos rfl]

/-- C1: the source loop `for j in 0..4` composites only bit columns 0-3.
Drawing the all-ones row `0xFF` at x = 60 on a blank screen lights wrapped
columns 60-63 but leaves columns 0-3 (the wrapped images of bit columns 4-7)
untouched, although every bit of the row is set; the claim that all 8 bit
columns are composited, and that a draw at x = 60 touches screen columns
60-63 and 0-3, fails on the code. -/
theorem C1_draw_sprite_skips_bit_columns_4_to_7 :
    Display.draw_sprite initDisplay 60 0 [0xFF] = some (c1d, false) ∧
    c1d.pixels (coordinate_to_index 60 0) = COLOR_FILLED ∧
    c1d.pixels (coordinate_to_index 63 0) = COLOR_FILLED ∧
    c1d.pixels (coordinate_to_index 0 0) = COLOR_EMPTY ∧
    c1d.pixels (coordinate_to_index 1 0) = COLOR_EMPTY ∧
    c1d.pixels (coordinate_to_index 2 0) = COLOR_EMPTY ∧
    c1d.pixels (coordinate_to_index 3 0) = COLOR_EMPTY :=
  ⟨rfl, rfl, rfl, rfl, rfl, rfl, rfl⟩

/-- The `src/display.rs` version of the routine (`for j in 0..8`) does light
the wrapped columns 0-3 on the same input, confirming the eight-column
behaviour is what the sibling implementation of this repository computes. -/
theorem draw_sprite_eight_cols_wraps_to_left_edge :
    ∃ p, Display.draw_sprite_eight_cols initDisplay 60 0 [0xFF] = some p ∧
      p.1.pixels (coordinate_to_index 0 0) = COLOR_FILLED ∧
      p.1.pixels (coordinate_to_index 3 0) = COLOR_FILLED ∧
      p.1.pixels (coordinate_to_index 60 0) = COLOR_FILLED :=
  ⟨_, rfl, rfl, rfl, rfl⟩

/-- C2 counterexample: executing `A123` (which does not write DT) with
`DT = 5` leaves `DT = 5`, not `5 - 1 = 4`: no step of
`Chip8::run_instruction` decrements the delay timer. -/
theorem C2_counterexample_dt_not_decremented :
    (Chip8.run_instruction c2s0).toOption.map Chip8.dt = some 5 ∧
    0xA123 &&& 0xF0FF ≠ 0xF015 ∧
    ¬ (5 : Nat) = 5 - 1 :=
  ⟨rfl, by decide, by decide⟩

/-- C2 (amended): the fetch-decode-execute cycle never decrements DT.  Any
successfully executed instruction whose word is not an `Fx15` (`LD DT, Vx`)
leaves the delay timer unchanged. -/
theorem C2_dt_unchanged_unless_fx15 (s t : Chip8) (w : Nat)
    (hfetch : s.ram.read_word s.pc = some w)
    (hw : w &&& 0xF0FF ≠ 0xF015)
    (hrun : Chip8.run_instruction s = Except.ok t) : t.dt = s.dt :=
  Chip8.run_instruction_dt s t w hfetch hw hrun

/-- C2 witness: the amended theorem applied to the concrete state `c2s0`. -/
theorem C2_dt_unchanged_witness : c2s1.dt = c2s0.dt :=
  C2_dt_unchanged_unless_fx15 c2s0 c2s1 0xA123 rfl (by decide) rfl

/-- C3 counterexample: executing `3A05` with `VA = 0x05` does not skip; it
aborts with the invalid-instruction panic, because the `3xkk` pattern is not
in the dispatch chain of `Chip8::run_instruction`. -/
theorem C3_counterexample_se_raises_invalid :
    c3s0.vx 0xA = 0x05 ∧
    Chip8.run_instruction c3s0 = Except.error (ExecErr.invalidInstruction 0x3A05) :=
  ⟨rfl, rfl⟩

/-- C3 (amended): every instruction word with high nibble 3 (pattern `3xkk`,
`SE Vx, kk`) matches no branch of the dispatch chain and aborts execution
with `InvalidOpcodeError`; the conditional skip never happens. -/
theorem C3_se_vx_byte_is_invalid_opcode (s : Chip8) (w : Nat)
    (hfetch : s.ram.read_word s.pc = some w)
    (hw : w >>> 12 = 0x3) :
    Chip8.run_instruction s = Except.error (ExecErr.invalidInstruction w) := by
  have hdiv : w / 4096 = 3 := by
    have hh := hw
    rw [Nat.shiftRight_eq_div_pow] at hh
    norm_num at hh
    exact hh
  have hle : w &&& 0xF0FF ≤ w := Nat.and_le_left
  refine Chip8.run_instruction_invalid s w hfetch
    (by omega) (by omega)
    (by simp [hw]) (by simp [hw]) (by simp [hw]) (by simp [hw]) (by simp [hw])
    (by simp [hw]) ?_ ?_ ?_ ?_ ?_ <;>
  · intro hm
    rw [hm] at hle
    omega

/-- C3 witness: the amended theorem applied to the concrete state `c3s0`. -/
theorem C3_se_vx_byte_witness :
    Chip8.run_instruction c3s0 = Except.error (ExecErr.invalidInstruction 0x3A05) :=
  C3_se_vx_byte_is_invalid_opcode c3s0 0x3A05 rfl (by decide)

/-- C4 counterexample: `ADD V0, 0xFF` with `V0 = 0xFF` stores 510 in the
16-bit register `V0`: the result is not reduced modulo 256
(`(0xFF + 0xFF) % 256 = 0xFE`) and the register leaves `[0, 256)`. -/
theorem C4_counterexample_add_does_not_wrap :
    (Chip8.run_instruction c4s0).toOption.map (fun t => t.vx 0) = some 510 ∧
    ¬ ((510 : Nat) = (0xFF + 0xFF) % 256 ∧ 510 < 256) :=
  ⟨rfl, by decide⟩

/-- C4 (amended): a successfully executed `7xkk` stores the plain sum
`Vx + kk` (held in a `u16`; a sum past `0xFFFF` is an overflow panic, not a
wrap to `[0,256)`), changes no other register - in particular, when `x ≠ F`,
the flag register keeps its value - and advances PC by 2. -/
theorem C4_add_vx_byte_plain_sum (s t : Chip8) (w : Nat)
    (hfetch : s.ram.read_word s.pc = some w)
    (hw : w >>> 12 = 0x7)
    (hrun : Chip8.run_instruction s = Except.ok t) :
    t.vx ((w &&& 0x0F00) >>> 8) = s.vx ((w &&& 0x0F00) >>> 8) + (w &&& 0x00FF) ∧
    (∀ k, k ≠ (w &&& 0x0F00) >>> 8 → t.vx k = s.vx k) ∧
    t.pc = s.pc + 2 := by
  rw [Chip8.run_instruction_eq_exec s w hfetch, Chip8.exec_add _ _ hw] at hrun
  obtain ⟨-, ht⟩ := Chip8.add_vx_byte_ok _ _ _ hrun
  subst ht
  exact ⟨upd_same _ _ _, fun k hk => upd_other _ _ _ _ hk, rfl⟩

/-- C4 witness: the amended theorem applied to the concrete state `c4s0`. -/
theorem C4_add_vx_byte_witness :
    c4s1.vx ((0x70FF &&& 0x0F00) >>> 8) =
      c4s0.vx ((0x70FF &&& 0x0F00) >>> 8) + (0x70FF &&& 0x00FF) ∧
    (∀ k, k ≠ (0x70FF &&& 0x0F00) >>> 8 → c4s1.vx k = c4s0.vx k) ∧
    c4s1.pc = c4s0.pc + 2 :=
  C4_add_vx_byte_plain_sum c4s0 c4s1 0x70FF rfl (by decide) rfl

/-- C5 counterexample: with pre-instruction `SP = 0`, `CALL 0x300` leaves
stack slot 0 (the pre-instruction stack-pointer slot) at its old value 0 -
the claim requires it to receive the return address `0x202`, which the code
instead stores in slot 1. -/
theorem C5_counterexample_call_stores_at_slot_sp_plus_one :
    (Chip8.run_instruction c5s0).toOption.map
        (fun t => (t.stack 0, t.stack 1, t.sp)) = some (0, 0x202, 1) ∧
    (0 : Nat) ≠ 0x202 :=
  ⟨rfl, by decide⟩

/-- C5 (amended): `2nnn` first increments SP, then stores the already-advanced
return address `PC + 2` into stack slot `SP + 1` (the new top), then sets
`PC = nnn`; all slots other than `SP + 1` are unchanged. -/
theorem C5_call_stores_return_address_at_new_top (s t : Chip8) (w : Nat)
    (hfetch : s.ram.read_word s.pc = some w)
    (hw : w >>> 12 = 0x2)
    (hrun : Chip8.run_instruction s = Except.ok t) :
    t.sp = s.sp + 1 ∧
    t.stack (s.sp + 1) = s.pc + 2 ∧
    t.pc = w &&& 0x0FFF ∧
    (∀ k, k ≠ s.sp + 1 → t.stack k = s.stack k) := by
  rw [Chip8.run_instruction_eq_exec s w hfetch, Chip8.exec_call _ _ hw] at hrun
  obtain ⟨-, -, ht⟩ := Chip8.call_addr_ok _ _ _ hrun
  subst ht
  exact ⟨rfl, upd_same _ _ _, rfl, fun k hk => upd_other _ _ _ _ hk⟩

/-- C5 witness: the amended theorem applied to the concrete state `c5s0`. -/
theorem C5_call_stores_witness :
    c5s1.sp = c5s0.sp + 1 ∧
    c5s1.stack (c5s0.sp + 1) = c5s0.pc + 2 ∧
    c5s1.pc = 0x2300 &&& 0x0FFF ∧
    (∀ k, k ≠ c5s0.sp + 1 → c5s1.stack k = c5s0.stack k) :=
  C5_call_stores_return_address_at_new_top c5s0 c5s1 0x2300 rfl (by decide) rfl

/-- C6 counterexample: two runs fetching the same invalid word at different
PCs abort with identical diagnostics, so the diagnostic cannot include the PC
at which the word was fetched; it carries only the raw 16-bit word. -/
theorem C6_counterexample_diagnostic_lacks_pc :
    c6s0.pc ≠ c6s1.pc ∧
    Chip8.run_instruction c6s0 = Except.error (ExecErr.invalidInstruction 0xFFFF) ∧
    Chip8.run_instruction c6s1 = Except.error (ExecErr.invalidInstruction 0xFFFF) ∧
    Chip8.run_instruction c6s0 = Chip8.run_instruction c6s1 :=
  ⟨by decide, rfl, rfl, rfl⟩

/-- C6 (amended): a fetched word matching no recognized opcode pattern aborts
execution fatally with `InvalidOpcodeError`, whose diagnostic includes the raw
16-bit word but not the PC. -/
theorem C6_invalid_opcode_reports_word_only (s : Chip8) (w : Nat)
    (hfetch : s.ram.read_word s.pc = some w)
    (h1 : w ≠ 0x00E0) (h2 : w ≠ 0x00EE)
    (h3 : w >>> 12 ≠ 0x1) (h4 : w >>> 12 ≠ 0x2) (h5 : w >>> 12 ≠ 0x6)
    (h6 : w >>> 12 ≠ 0x7) (h7 : w >>> 12 ≠ 0xA) (h8 : w >>> 12 ≠ 0xD)
    (h9 : w &&& 0xF0FF ≠ 0xF007) (h10 : w &&& 0xF0FF ≠ 0xF015)
    (h11 : w &&& 0xF0FF ≠ 0xF029) (h12 : w &&& 0xF0FF ≠ 0xF033)
    (h13 : w &&& 0xF0FF ≠ 0xF065) :
    Chip8.run_instruction s = Except.error (ExecErr.invalidInstruction w) :=
  Chip8.run_instruction_invalid s w hfetch h1 h2 h3 h4 h5 h6 h7 h8 h9 h10 h11 h12 h13

/-- C6 witness: the amended theorem applied to the concrete state `c6s0`. -/
theorem C6_invalid_opcode_witness :
    Chip8.run_instruction c6s0 = Except.error (ExecErr.invalidInstruction 0xFFFF) :=
  C6_invalid_opcode_reports_word_only c6s0 0xFFFF rfl (by decide) (by decide)
    (by decide) (by decide) (by decide) (by decide) (by decide) (by decide)
    (by decide) (by decide) (by decide) (by decide) (by decide)

/-- C7 counterexample: from the initial state of the ROM `11FF`, one executed
instruction reaches the pre-fetch state `PC = 0x1FF`, which is odd and below
0x200: the claimed invariant fails on reachable states. -/
theorem C7_counterexample_odd_low_pc_reachable :
    Chip8.new c7rom = some c7s0 ∧
    Chip8.steps 1 c7s0 = Except.ok c7s1 ∧
    c7s1.pc = 0x1FF ∧
    ¬ (0x1FF % 2 = 0 ∧ 0x200 ≤ 0x1FF) :=
  ⟨rfl, rfl, rfl, by decide⟩

/-- C7 (amended): in every state reachable by executing instructions from the
initial state of any ROM, the PC immediately before each fetch is at most
4096; it need not be even nor at least 0x200 (a `1nnn` jump can set it to any
12-bit value). -/
theorem C7_reachable_pc_at_most_4096 (rom : List Nat) (c : Chip8) (n : Nat)
    (s : Chip8)
    (hnew : Chip8.new rom = some c)
    (hs : Chip8.steps n c = Except.ok s) : s.pc ≤ 4096 := by
  have hb : PcStackBounded c := by
    unfold Chip8.new at hnew
    cases hram : Ram.new rom with
    | none =>
      rw [hram] at hnew
      exact absurd hnew (by simp)
    | some r =>
      rw [hram] at hnew
      simp only [Option.some.injEq] at hnew
      rw [← hnew]
      exact ⟨by norm_num, fun k => by norm_num⟩
  exact (Chip8.steps_bounded n c s hb hs).1

/-- C7 witness: the amended theorem applied to the ROM `11FF` after one
step. -/
theorem C7_reachable_pc_witness : c7s1.pc ≤ 4096 :=
  C7_reachable_pc_at_most_4096 c7rom c7s0 1 c7s1 rfl rfl

theorem Chip8.steps_succ_of_ok (n : Nat) (s t : Chip8)
    (h : Chip8.run_instruction s = .ok t) :
    Chip8.steps (n + 1) s = Chip8.steps n t := by
  simp only [Chip8.steps, h]

/-- C8: from any state with room for one more stack frame, executing
`2nnn` and then, at address `nnn`, `00EE`, restores PC to the instruction
immediately following the CALL (the already-advanced `PC + 2`) and restores SP
to its pre-call value. -/
theorem C8_call_then_ret_restores (s : Chip8) (w : Nat)
    (hfetch : s.ram.read_word s.pc = some w)
    (hw : w >>> 12 = 0x2)
    (hsp : s.sp + 1 < 16)
    (hret : s.ram.read_word (w &&& 0x0FFF) = some 0x00EE) :
    ∃ t, Chip8.steps 2 s = Except.ok t ∧ t.pc = s.pc + 2 ∧ t.sp = s.sp := by
  have hrun1 : Chip8.run_instruction s =
      .ok { s with sp := s.sp + 1,
                   stack := upd s.stack (s.sp + 1) (s.pc + 2),
                   pc := w &&& 0x0FFF } := by
    rw [Chip8.run_instruction_eq_exec s w hfetch, Chip8.exec_call _ _ hw]
    unfold Chip8.call_addr
    dsimp only
    rw [if_neg (by omega : ¬ s.sp = 255), if_pos hsp]
  have hfetch2 :
      ({ s with sp := s.sp + 1,
                stack := upd s.stack (s.sp + 1) (s.pc + 2),
                pc := w &&& 0x0FFF } : Chip8).ram.read_word
        ({ s with sp := s.sp + 1,
                  stack := upd s.stack (s.sp + 1) (s.pc + 2),
                  pc := w &&& 0x0FFF } : Chip8).pc = some 0x00EE := hret
  have hrun2 : Chip8.run_instruction
      { s with sp := s.sp + 1,
               stack := upd s.stack (s.sp + 1) (s.pc + 2),
               pc := w &&& 0x0FFF } =
      .ok { s with sp := s.sp + 1 - 1,
                   stack := upd s.stack (s.sp + 1) (s.pc + 2),
                   pc := upd s.stack (s.sp + 1) (s.pc + 2) (s.sp + 1) } := by
    rw [Chip8.run_instruction_eq_exec _ 0x00EE hfetch2, Chip8.exec_ret_word]
    unfold Chip8.ret
    dsimp only
    rw [if_pos (by omega : s.sp + 1 < 16), if_neg (by omega : ¬ s.sp + 1 = 0)]
  refine Exists.intro
    { s with sp := s.sp + 1 - 1,
             stack := upd s.stack (s.sp + 1) (s.pc + 2),
             pc := upd s.stack (s.sp + 1) (s.pc + 2) (s.sp + 1) }
    ⟨?_, ?_, ?_⟩
  · calc Chip8.steps 2 s
        = Chip8.steps 1 { s with sp := s.sp + 1,
                                 stack := upd s.stack (s.sp + 1) (s.pc + 2),
                                 pc := w &&& 0x0FFF } :=
          Chip8.steps_succ_of_ok 1 _ _ hrun1
      _ = Chip8.steps 0 { s with sp := s.sp + 1 - 1,
                                 stack := upd s.stack (s.sp + 1) (s.pc + 2),
                                 pc := upd s.stack (s.sp + 1) (s.pc + 2) (s.sp + 1) } :=
          Chip8.steps_succ_of_ok 0 _ _ hrun2
      _ = _ := rfl
  · exact upd_same s.stack (s.sp + 1) (s.pc + 2)
  · exact Nat.add_sub_cancel s.sp 1

/-- C8 witness: the round trip applied to the concrete state `c8s0`. -/
theorem C8_call_then_ret_witness :
    ∃ t, Chip8.steps 2 c8s0 = Except.ok t ∧ t.pc = c8s0.pc + 2 ∧ t.sp = c8s0.sp :=
  C8_call_then_ret_restores c8s0 0x2300 rfl (by decide) (by decide) rfl

/-- C9: for every address and byte sequence fitting in the 4096-byte RAM,
`write_data` succeeds and `read_bytes` over the same range returns exactly the
written bytes. -/
theorem C9_write_then_read_roundtrip (r : Ram) (a : Nat) (bs : List Nat)
    (h : a + bs.length ≤ 4096) :
    ∃ r2, Ram.write_data r a bs = some r2 ∧
      Ram.read_bytes r2 a bs.length = some bs :=
  Ram.write_data_read_bytes bs r a h

/-- C9 witness: the roundtrip applied to a concrete memory, address and byte
list. -/
theorem C9_write_then_read_witness :
    ∃ r2, Ram.write_data ⟨fun _ => 0⟩ 100 [1, 2, 3] = some r2 ∧
      Ram.read_bytes r2 100 [1, 2, 3].length = some [1, 2, 3] :=
  C9_write_then_read_roundtrip ⟨fun _ => 0⟩ 100 [1, 2, 3] (by decide)

/-- C10: every framebuffer cell is exactly `COLOR_EMPTY` or `COLOR_FILLED`:
the invariant holds at initialization, after `clear`, and is preserved by
`draw_sprite` for every input, whose `panic!` branch (`No matching
condition`) is then unreachable - the draw always returns a result. -/
theorem C10_framebuffer_cells_binary :
    PixOk initDisplay ∧
    (∀ d : Display, PixOk (Display.clear d)) ∧
    (∀ (d : Display) (x y : Nat) (rows : List Nat), PixOk d →
      ∃ d2 er, Display.draw_sprite d x y rows = some (d2, er) ∧ PixOk d2) :=
  ⟨PixOk_initDisplay, PixOk_clear,
    fun d x y rows h => draw_sprite_total d x y rows h⟩

/-- C10 witness: the invariant statement applied to the initial display and a
concrete sprite. -/
theorem C10_framebuffer_cells_binary_witness :
    ∃ d2 er, Display.draw_sprite initDisplay 60 30 [0xFF, 0x81] = some (d2, er) ∧
      PixOk d2 :=
  C10_framebuffer_cells_binary.2.2 initDisplay 60 30 [0xFF, 0x81]
    (fun _ => Or.inl rfl)
